import Mathlib

/-!
Verification development for the dual-store game-leaderboard backend
(`src/app.ts`, plus the compiled router variant shipped alongside it).

The engine state is embedded shallowly:
- the MySQL `players` table becomes a list of `PlayerRec` plus an
  auto-increment counter;
- the Redis sorted set `game_leaderboard` becomes an association list from
  member string to rational score, with the descending (`REV`) order,
  rank lookups and index-range retrieval defined to mirror Redis semantics
  (ties broken by member, negative range indexes counted from the end);
- the Redis string `leaderboard_prize_pool` becomes a rational counter.

JavaScript request values are modelled by `JSVal`, so that the handlers'
truthiness checks (`!playerId`) and `typeof amount !== 'number'` checks can
be stated faithfully, including for `NaN` and `Infinity` (which are numbers
for `typeof`).  Scores and money amounts use `ℚ` in place of IEEE doubles;
this embedding does not model floating-point rounding, and an earning whose
non-finite numeric amount reaches the Redis write is mapped to `none`.
-/

/-- A JavaScript number as seen by the `/leaderboard/earn` validation:
either a finite value (embedded as a rational) or one of the IEEE special
values `NaN`, `Infinity`, `-Infinity`. -/
inductive JSNum where
  | finite (q : ℚ)
  | nan
  | inf
  | negInf
deriving DecidableEq, Repr

/-- A JavaScript request-body value, as far as the handlers inspect one. -/
inductive JSVal where
  | num (n : JSNum)
  | str (s : String)
  | bool (b : Bool)
  | null
  | undefined
deriving DecidableEq, Repr

/-- JavaScript truthiness, used by the `!playerId` guard: `0`, `NaN`, the
empty string, `false`, `null` and `undefined` are falsy. -/
def JSVal.truthy : JSVal → Bool
  | .num (.finite q) => q != 0
  | .num .nan => false
  | .num .inf => true
  | .num .negInf => true
  | .str s => s != ""
  | .bool b => b
  | .null => false
  | .undefined => false

/-- Models `typeof v === 'number'`.  Note `NaN` and `Infinity` are numbers. -/
def JSVal.isNumber : JSVal → Bool
  | .num _ => true
  | _ => false

/-- A row of the MySQL `players` table. -/
structure PlayerRec where
  id : Nat
  name : String
  country : String
  countryCode : String
deriving DecidableEq, Repr

/-- Models `WHERE id = ?` with a JS value bound: MySQL compares the parameter with
the integer `id` column (a numeric string matches its number).  Only the
integer cases are exercised by the theorems below. -/
def idMatches (v : JSVal) (pid : Nat) : Bool :=
  match v with
  | .num (.finite q) => q == (pid : ℚ)
  | .str s => s == toString pid
  | _ => false

/-- Models `playerId.toString()`, for the cases that can reach the Redis write
(a finite number or a string). -/
def jsKey (v : JSVal) : String :=
  match v with
  | .num (.finite q) => toString q.num
  | .str s => s
  | _ => ""

/-- One member of the Redis sorted set: `(member, score)`. -/
abbrev Entry := String × ℚ

/-- The Redis sorted set, as an association list with unique members. -/
abbrev Board := List Entry

/-- Models `ZSCORE`: the score of a member, if present. -/
def zScore : Board → String → Option ℚ
  | [], _ => none
  | e :: rest, m => if e.1 == m then some e.2 else zScore rest m

/-- Models `ZINCRBY`: add `delta` to the member's score, creating the member with
score `delta` if absent. -/
def zIncrBy (b : Board) (delta : ℚ) (m : String) : Board :=
  match b with
  | [] => [(m, delta)]
  | e :: rest => if e.1 == m then (e.1, e.2 + delta) :: rest else e :: zIncrBy rest delta m

/-- Models `ZADD`: set the member's score, creating the member if absent. -/
def zAdd (b : Board) (score : ℚ) (m : String) : Board :=
  match b with
  | [] => [(m, score)]
  | e :: rest => if e.1 == m then (e.1, score) :: rest else e :: zAdd rest score m

/-- Number of entries carrying member `m` (1 for a well-formed set). -/
def countKey (b : Board) (m : String) : Nat :=
  (b.filter fun e => e.1 == m).length

/-- The descending (`REV`) order on sorted-set entries: higher score first,
ties broken by member in reverse lexicographic order, as Redis does. -/
def entryBefore (a b : Entry) : Bool :=
  b.2 < a.2 || (a.2 == b.2 && b.1 < a.1)

/-- Insert an entry into a descending-ordered list. -/
def insertEntry (e : Entry) : List Entry → List Entry
  | [] => [e]
  | f :: rest => if entryBefore e f then e :: f :: rest else f :: insertEntry e rest

/-- The sorted set in descending (`REV`) order. -/
def revSorted : Board → List Entry
  | [] => []
  | e :: rest => insertEntry e (revSorted rest)

/-- 0-based position of the first entry with member `m`. -/
def rankIn (m : String) : List Entry → Option Nat
  | [] => none
  | e :: rest => if e.1 == m then some 0 else (rankIn m rest).map (· + 1)

/-- Models `ZREVRANK`: 0-based rank in descending score order, or absent. -/
def zRevRank (b : Board) (m : String) : Option Nat :=
  rankIn m (revSorted b)

/-- Redis index-range selection on an ordered list: negative indexes count
from the end (`-1` is the last element), the stop index is clamped to the
last element, and a start past the stop yields the empty list. -/
def zrangeSlice (l : List Entry) (start stop : Int) : List Entry :=
  let n : Int := l.length
  let s := max (if start < 0 then n + start else start) 0
  let e := min (if stop < 0 then n + stop else stop) (n - 1)
  if s > e then [] else (l.drop s.toNat).take (e - s + 1).toNat

/-- Models `ZRANGE key start stop REV WITHSCORES`. -/
def zRangeRevIdx (b : Board) (start stop : Int) : List Entry :=
  zrangeSlice (revSorted b) start stop

/-- The whole engine state: `players` table, auto-increment counter,
leaderboard sorted set and prize-pool counter. -/
structure EngineState where
  identity : List PlayerRec
  board : Board
  pool : ℚ
  nextId : Nat
deriving DecidableEq, Repr

/-- Outcome tag of `POST /leaderboard/earn`. -/
inductive EarnStatus where
  | invalidInput
  | notFound
  | ok
deriving DecidableEq, Repr

/-- Models `POST /leaderboard/earn`: validate `!playerId || typeof amount !==
'number'`, check the player exists in MySQL, then `ZINCRBY` the score by
`amount` and `INCRBYFLOAT` the pool by `amount * 0.02`.  Returns `none`
when a non-finite numeric amount reaches the Redis write, which the
rational-number embedding does not model. -/
def earn (st : EngineState) (playerId amount : JSVal) : Option (EarnStatus × EngineState) :=
  if !playerId.truthy || !amount.isNumber then
    some (.invalidInput, st)
  else if !(st.identity.any fun p => idMatches playerId p.id) then
    some (.notFound, st)
  else
    match amount with
    | .num (.finite q) =>
        some (.ok, ⟨st.identity, zIncrBy st.board q (jsKey playerId),
                    st.pool + q * (2 / 100), st.nextId⟩)
    | _ => none

/-- Outcome of `POST /player/create`. -/
inductive CreateResult where
  | invalidInput
  | conflict
  | created (id : Nat)
deriving DecidableEq, Repr

/-- Models JavaScript `String.prototype.trim`: strip whitespace from both ends
(implemented structurally on the character list so that proofs can
evaluate it). -/
def jsTrim (s : String) : String :=
  ⟨((s.data.dropWhile Char.isWhitespace).reverse.dropWhile Char.isWhitespace).reverse⟩

/-- Models `POST /player/create`: reject fields blank after trimming, reject an
exact duplicate triple, otherwise insert into MySQL (auto-increment id) and
`ZADD` the new id with score 0. -/
def createPlayer (st : EngineState) (name country countryCode : String) :
    CreateResult × EngineState :=
  if jsTrim name == "" || jsTrim country == "" || jsTrim countryCode == "" then
    (.invalidInput, st)
  else if st.identity.any fun p =>
      p.name == name && p.country == country && p.countryCode == countryCode then
    (.conflict, st)
  else
    (.created st.nextId,
     ⟨st.identity ++ [⟨st.nextId, name, country, countryCode⟩],
      zAdd st.board 0 (toString st.nextId), st.pool, st.nextId + 1⟩)

/-- The fixed top-3 settlement percentages, `const rewards = [0.2, 0.15, 0.1]`. -/
def tierRates : List ℚ := [2 / 10, 15 / 100, 1 / 10]

/-- The rewards computed by the settlement loop, in leaderboard order:
argument order is the fixed pre-distribution pool, the loop index `i`, the
running `remainingPrize`, and the remaining entries.  For `i < 3` the reward
is `prizePool * rewards[i]`; otherwise it is `remainingPrize * 0.00567`;
`remainingPrize` decreases by every reward, top-3 included. -/
def settleList (P : ℚ) : Nat → ℚ → List Entry → List (String × ℚ)
  | _, _, [] => []
  | i, remaining, e :: rest =>
    let reward := if i < 3 then P * tierRates.getD i 0 else remaining * (567 / 100000)
    (e.1, reward) :: settleList P (i + 1) (remaining - reward) rest

/-- The settlement loop as run by the cron handler: computes each reward as
in `settleList` and immediately applies it to the board via `ZINCRBY`. -/
def settleLoop (P : ℚ) : Nat → ℚ → Board → List Entry → Board
  | _, _, board, [] => board
  | i, remaining, board, e :: rest =>
    let reward := if i < 3 then P * tierRates.getD i 0 else remaining * (567 / 100000)
    settleLoop P (i + 1) (remaining - reward) (zIncrBy board reward e.1) rest

/-- Apply a list of `(member, reward)` pairs to a board by `ZINCRBY`. -/
def applyRewards (b : Board) : List (String × ℚ) → Board
  | [] => b
  | (m, r) :: rest => applyRewards (zIncrBy b r m) rest

/-- The weekly settlement job: read the pool, fetch the top 100
(`ZRANGE 0 99 REV`), when non-empty run the reward loop, and finally set the
pool to `'0'` unconditionally. -/
def settlement (st : EngineState) : EngineState :=
  let prizePool := st.pool
  let leaderboard := zRangeRevIdx st.board 0 99
  let newBoard :=
    if 0 < leaderboard.length then settleLoop prizePool 0 prizePool st.board leaderboard
    else st.board
  ⟨st.identity, newBoard, 0, st.nextId⟩

/-- One row of the top-100 view: profile fields are `null` when the ranked
id has no MySQL record. -/
structure RankedRow where
  ranking : Nat
  id : String
  playerName : Option String
  country : Option String
  countryCode : Option String
  money : ℚ
deriving DecidableEq, Repr

/-- The `leaderboard.map((player, index) => ...)` join of
`getTopRankingPlayers`, carried out from a given 0-based index. -/
def topRows (idy : List PlayerRec) : List Entry → Nat → List RankedRow
  | [], _ => []
  | e :: rest, i =>
    let pd := idy.find? fun p => toString p.id == e.1
    ⟨i + 1, e.1, pd.map (·.name), pd.map (·.country), pd.map (·.countryCode), e.2⟩ ::
      topRows idy rest (i + 1)

/-- Models `getTopRankingPlayers`: top 100 by `ZRANGE 0 99 REV` joined with MySQL
profiles, with `null` profile fields for ids missing from MySQL. -/
def getTopRankingPlayers (st : EngineState) : List RankedRow :=
  topRows st.identity (zRangeRevIdx st.board 0 99) 0

/-- A neighborhood (surrounding-players) row built by `getSearchResults`. -/
structure NRow where
  ranking : Nat
  id : String
  playerName : String
  country : String
  countryCode : String
  money : ℚ
deriving DecidableEq, Repr

/-- A search-result row of `getSearchResults`. -/
structure SRow where
  id : String
  ranking : Nat
  playerName : String
  country : String
  countryCode : String
  money : ℚ
  prevPlayers : List NRow
  nextPlayers : List NRow
deriving DecidableEq, Repr

/-- The `startRank = rank - 3 < 0 ? 0 : rank - 3` clamp of
`getSearchResults`. -/
def startRankOf (r : Nat) : Nat :=
  if r < 3 then 0 else r - 3

/-- The `surroundingPlayers.map((player, index) => ...)` body of
`getSearchResults`: for each fetched entry, skip it when its MySQL profile
is missing, otherwise sort it into `prevPlayers` (window position before the
searched rank) or `nextPlayers` (after it), skipping ids already in the
per-request set and recording new ones.  Arguments: identity table, the
included-ids set, `startRank`, the searched rank, the running index, and
the remaining window entries; returns `(prevPlayers, nextPlayers, set)`. -/
def processSurrounding (idy : List PlayerRec) :
    List String → Nat → Nat → Nat → List Entry → List NRow × List NRow × List String
  | inc, _, _, _, [] => ([], [], inc)
  | inc, s, r, idx, e :: rest =>
    match idy.find? fun p => toString p.id == e.1 with
    | none => processSurrounding idy inc s r (idx + 1) rest
    | some pd =>
      if s + idx < r then
        if e.1 ∈ inc then processSurrounding idy inc s r (idx + 1) rest
        else
          let out := processSurrounding idy (e.1 :: inc) s r (idx + 1) rest
          (⟨s + idx + 1, e.1, pd.name, pd.country, pd.countryCode, e.2⟩ :: out.1,
           out.2.1, out.2.2)
      else if r < s + idx then
        if e.1 ∈ inc then processSurrounding idy inc s r (idx + 1) rest
        else
          let out := processSurrounding idy (e.1 :: inc) s r (idx + 1) rest
          (out.1,
           ⟨s + idx + 1, e.1, pd.name, pd.country, pd.countryCode, e.2⟩ :: out.2.1,
           out.2.2)
      else processSurrounding idy inc s r (idx + 1) rest

/-- Models `getSearchResults`: walk the matched players threading the per-request
`includedPlayerIds` set; skip a player already included or absent from the
board (logged as an inconsistency, with no self-heal write), otherwise emit
a row with the clamped surrounding window partitioned by
`processSurrounding`. -/
def getSearchResults (st : EngineState) : List PlayerRec → List String → List SRow
  | [], _ => []
  | p :: rest, inc =>
    let key := toString p.id
    if key ∈ inc then getSearchResults st rest inc
    else
      let inc₁ := key :: inc
      match zRevRank st.board key with
      | none => getSearchResults st rest inc₁
      | some r =>
        let money := (zScore st.board key).getD 0
        let s := startRankOf r
        let surrounding := zRangeRevIdx st.board (s : Int) ((r : Int) + 2)
        let out := processSurrounding st.identity inc₁ s r 0 surrounding
        ⟨key, r + 1, p.name, p.country, p.countryCode, money, out.1, out.2.1⟩ ::
          getSearchResults st rest out.2.2

/-- Whether the first character list starts the second one. -/
def leadsWith : List Char → List Char → Bool
  | [], _ => true
  | _ :: _, [] => false
  | c :: cs, d :: ds => c == d && leadsWith cs ds

/-- Whether `needle` occurs as a contiguous subsequence of the list. -/
def containsSeq (needle : List Char) : List Char → Bool
  | [] => needle.isEmpty
  | d :: ds => leadsWith needle (d :: ds) || containsSeq needle ds

/-- Models `name LIKE '%query%'`, interpreted as substring containment (the MySQL
collation's case folding is not modelled; theorems use exact-case inputs). -/
def likeMatch (hay needle : String) : Bool :=
  containsSeq needle.data hay.data

/-- Insert into a list of `(player, rank)` pairs ordered by ascending rank. -/
def insertByRank (x : PlayerRec × Nat) : List (PlayerRec × Nat) → List (PlayerRec × Nat)
  | [] => [x]
  | y :: rest => if x.2 ≤ y.2 then x :: y :: rest else y :: insertByRank x rest

/-- Models `filteredPlayers.sort((a, b) => a.rank - b.rank)`. -/
def sortByRank : List (PlayerRec × Nat) → List (PlayerRec × Nat)
  | [] => []
  | x :: rest => insertByRank x (sortByRank rest)

/-- Response of `GET /leaderboard/top-ranking-data`. -/
structure TRDResponse where
  topRankingPlayers : List RankedRow
  searchResults : Option (List SRow)
deriving DecidableEq, Repr

/-- Models `GET /leaderboard/top-ranking-data`: always compute the top-100 view;
with a query, match players **by name**, attach ranks (dropping players
absent from the board), sort by rank and build search results with a fresh
per-request included-ids set.  The handler performs no store writes. -/
def topRankingData (st : EngineState) (query : String) : TRDResponse :=
  if query == "" then ⟨getTopRankingPlayers st, none⟩
  else if (st.identity.filter fun p => likeMatch p.name query).isEmpty then
    ⟨getTopRankingPlayers st, none⟩
  else
    ⟨getTopRankingPlayers st,
     some (getSearchResults st
       ((sortByRank ((st.identity.filter fun p => likeMatch p.name query).filterMap fun p =>
           (zRevRank st.board (toString p.id)).map fun r => (p, r + 1))).map Prod.fst) [])⟩

/-- The result row of the version-2 standalone `GET /leaderboard/search`
handler for a player matched in MySQL, in its rank-absent branch: `ranking`
is `null` and `money` is `0`. -/
structure V2NullRow where
  ranking : Option Nat
  playerName : String
  country : String
  countryCode : String
  money : ℚ
deriving DecidableEq, Repr

/-- The rank-absent branch of the version-2 standalone
`GET /leaderboard/search` handler: log the inconsistency, `ZADD` a
zero-score entry for the player (self-heal), and answer with `ranking:
null, money: 0` and the MySQL profile. -/
def searchSelfHeal (st : EngineState) (p : PlayerRec) : V2NullRow × Board :=
  (⟨none, p.name, p.country, p.countryCode, 0⟩, zAdd st.board 0 (toString p.id))

/-- The surrounding-window fetch of the version-2 standalone
`GET /leaderboard/search` handler: `startRank = rank - 3` and
`endRank = rank + 2` **without clamping**, passed to `ZRANGE ... REV`. -/
def surroundingV2 (b : Board) (r : Nat) : List Entry :=
  zRangeRevIdx b ((r : Int) - 3) ((r : Int) + 2)

/-- Follows the spec's words: the contiguous rank window
`[max(0, R-3), R+2]` of the descending leaderboard. -/
def specNeighborhoodWindow (sorted : List Entry) (r : Nat) : List Entry :=
  (sorted.drop (r - 3)).take (r + 2 - (r - 3) + 1)

/-- Follows the spec's words: the better-ranked partition of a fetched
window starting at rank `s`, relative to searched rank `r` — the entries at
window positions strictly before `r` that have a MySQL profile, with the
profile attached. -/
def windowPrevSpec (idy : List PlayerRec) (s r : Nat) (surr : List Entry) : List NRow :=
  (List.enumFrom 0 surr).filterMap fun je =>
    match idy.find? fun p => toString p.id == je.2.1 with
    | none => none
    | some pd =>
      if s + je.1 < r then
        some ⟨s + je.1 + 1, je.2.1, pd.name, pd.country, pd.countryCode, je.2.2⟩
      else none

/-- Follows the spec's words: the worse-ranked partition of a fetched
window, symmetric to `windowPrevSpec`. -/
def windowNextSpec (idy : List PlayerRec) (s r : Nat) (surr : List Entry) : List NRow :=
  (List.enumFrom 0 surr).filterMap fun je =>
    match idy.find? fun p => toString p.id == je.2.1 with
    | none => none
    | some pd =>
      if r < s + je.1 then
        some ⟨s + je.1 + 1, je.2.1, pd.name, pd.country, pd.countryCode, je.2.2⟩
      else none

/-- All player ids appearing in a list of search rows: the searched
players' own ids and every neighborhood id. -/
def srowIds : List SRow → List String
  | [] => []
  | row :: rest =>
    (row.id :: (row.prevPlayers.map NRow.id ++ row.nextPlayers.map NRow.id)) ++ srowIds rest

/-- Only the neighborhood ids of a list of search rows. -/
def neighborhoodIds : List SRow → List String
  | [] => []
  | row :: rest =>
    row.prevPlayers.map NRow.id ++ row.nextPlayers.map NRow.id ++ neighborhoodIds rest

/-! Concrete states used by scenarios, witnesses and counterexamples -/

/-- Scenario B state: two ranked players with scores 500 and 300, pool 100. -/
def stScenB : EngineState := ⟨[], [("1", 500), ("2", 300)], 100, 1⟩

/-- A state whose board has 100 members. -/
def stHundred : EngineState :=
  ⟨[], (List.range 100).map fun i => (toString i, (0 : ℚ)), 1, 1⟩

/-- An empty-board state with a non-zero pool. -/
def stEmptyBoard : EngineState := ⟨[], [], 5, 1⟩

/-- The pristine state before Scenario A's registration. -/
def stReg0 : EngineState := ⟨[], [], 0, 1⟩

/-- Scenario A state right after registering "Ada"/"US"/"US". -/
def stAda0 : EngineState := ⟨[⟨1, "Ada", "US", "US"⟩], [("1", 0)], 0, 2⟩

/-- Scenario A state after Ada earns 100. -/
def stAda100 : EngineState := ⟨[⟨1, "Ada", "US", "US"⟩], [("1", 100)], 2, 2⟩

/-- A state where Ada exists in the identity store but not on the board. -/
def stAdaNoRank : EngineState := ⟨[⟨1, "Ada", "US", "US"⟩], [], 0, 2⟩

/-- Ada is profiled but unranked while Bob holds the only board entry, so
the leaderboard is non-empty and the top-view join runs normally. -/
def stAdaUnranked : EngineState :=
  ⟨[⟨1, "Ada", "US", "US"⟩, ⟨2, "Bob", "FR", "FR"⟩], [("2", 50)], 0, 3⟩

/-- A six-member board whose entry "a" sits at rank 0. -/
def b6board : Board := [("a", 60), ("b", 50), ("c", 40), ("d", 30), ("e", 20), ("f", 10)]

/-- Alice ranks 1st and Bob 2nd; both are profiled in the identity store. -/
def stAliceBob : EngineState :=
  ⟨[⟨1, "Alice", "US", "US"⟩, ⟨2, "Bob", "FR", "FR"⟩], [("1", 100), ("2", 50)], 0, 3⟩


/-! Helper lemmas -/

lemma length_insertEntry (e : Entry) : ∀ l : List Entry, (insertEntry e l).length = l.length + 1
  | [] => rfl
  | f :: rest => by
    by_cases h : entryBefore e f <;> simp [insertEntry, h, length_insertEntry e rest]

lemma length_revSorted : ∀ b : Board, (revSorted b).length = b.length
  | [] => rfl
  | e :: rest => by simp [revSorted, length_insertEntry, length_revSorted rest]

lemma length_zRangeRev_top (b : Board) : (zRangeRevIdx b 0 99).length = min 100 b.length := by
  have h0 : ¬ ((0 : Int) < 0) := by norm_num
  have h99 : ¬ ((99 : Int) < 0) := by norm_num
  have hn := length_revSorted b
  unfold zRangeRevIdx zrangeSlice
  simp only [if_neg h0, if_neg h99, hn, max_self]
  split
  · simp only [List.length_nil]
    omega
  · simp only [List.length_take, List.length_drop, hn]
    omega

lemma settleList_length (P : ℚ) :
    ∀ (l : List Entry) (j : Nat) (rem : ℚ), (settleList P j rem l).length = l.length
  | [], _, _ => rfl
  | _ :: rest, j, rem => by simp [settleList, settleList_length P rest]

lemma settleLoop_eq_applyRewards (P : ℚ) :
    ∀ (l : List Entry) (j : Nat) (rem : ℚ) (b : Board),
      settleLoop P j rem b l = applyRewards b (settleList P j rem l)
  | [], _, _, _ => rfl
  | e :: rest, j, rem, b => by
    simp [settleLoop, settleList, applyRewards, settleLoop_eq_applyRewards P rest]

lemma settleList_getD (P : ℚ) :
    ∀ (l : List Entry) (j : Nat) (rem : ℚ) (i : Nat), i < l.length →
      (settleList P j rem l).getD i ("", 0) =
        ((l.getD i ("", 0)).1,
          if j + i < 3 then P * tierRates.getD (j + i) 0
          else (rem - (((settleList P j rem l).map Prod.snd).take i).sum) * (567 / 100000))
  | [], _, _, i, h => by simp at h
  | e :: rest, j, rem, 0, _ => by
    by_cases hj : j < 3 <;> simp [settleList, hj]
  | e :: rest, j, rem, i + 1, h => by
    have ih := settleList_getD P rest (j + 1)
      (rem - (if j < 3 then P * tierRates.getD j 0 else rem * (567 / 100000))) i
      (by simpa using Nat.lt_of_succ_lt_succ h)
    simp only [settleList, List.getD_cons_succ, List.map_cons, List.take_succ_cons,
      List.sum_cons] at ih ⊢
    rw [ih]
    have hidx : j + 1 + i = j + (i + 1) := by omega
    by_cases hji : j + (i + 1) < 3
    · rw [if_pos (by omega : j + 1 + i < 3), if_pos hji, hidx]
    · rw [if_neg (by omega : ¬ j + 1 + i < 3), if_neg hji]
      ring_nf

lemma settleList_sum_ge3 (P : ℚ) :
    ∀ (l : List Entry) (j : Nat) (rem : ℚ), 3 ≤ j →
      ((settleList P j rem l).map Prod.snd).sum = rem - rem * (1 - 567 / 100000) ^ l.length
  | [], _, _, _ => by simp [settleList]
  | e :: rest, j, rem, hj => by
    have ih := settleList_sum_ge3 P rest (j + 1) (rem - rem * (567 / 100000)) (by omega)
    have hj3 : ¬ j < 3 := by omega
    simp only [settleList, hj3, if_false, List.map_cons, List.sum_cons, List.length_cons, ih]
    ring

lemma zScore_zIncrBy_self (m : String) (δ : ℚ) :
    ∀ b : Board, zScore (zIncrBy b δ m) m = some ((zScore b m).getD 0 + δ)
  | [] => by simp [zIncrBy, zScore]
  | e :: rest => by
    by_cases h : e.1 == m
    · simp [zIncrBy, zScore, h]
    · simp [zIncrBy, zScore, h, zScore_zIncrBy_self m δ rest]

lemma jsKey_natCast (n : Nat) : jsKey (.num (.finite (n : ℚ))) = toString n := by
  have : ((n : ℚ)).num = (n : Int) := Rat.num_natCast n
  simp only [jsKey, this]
  rfl

lemma truthy_natCast {n : Nat} (h : n ≠ 0) : (JSVal.num (.finite (n : ℚ))).truthy = true := by
  simp only [JSVal.truthy, bne_iff_ne, ne_eq]
  exact_mod_cast h

lemma mem_insertEntry {e f : Entry} : ∀ {l : List Entry}, f ∈ insertEntry e l ↔ f = e ∨ f ∈ l
  | [] => by simp [insertEntry]
  | g :: rest => by
    by_cases h : entryBefore e g
    · simp [insertEntry, h]
    · simp [insertEntry, h, mem_insertEntry (l := rest)]
      tauto

lemma mem_revSorted {f : Entry} : ∀ {b : Board}, f ∈ revSorted b ↔ f ∈ b
  | [] => Iff.rfl
  | e :: rest => by simp [revSorted, mem_insertEntry, mem_revSorted (b := rest)]

lemma rankIn_none_notMem {m : String} :
    ∀ {l : List Entry}, rankIn m l = none → ∀ e ∈ l, e.1 ≠ m
  | [], _ => by simp
  | e :: rest, h => by
    unfold rankIn at h
    by_cases he : e.1 == m
    · rw [if_pos he] at h
      exact absurd h (by simp)
    · rw [if_neg he] at h
      have hrest : rankIn m rest = none := by
        cases hr : rankIn m rest <;> simp [hr] at h ⊢
      intro f hf
      rcases List.mem_cons.mp hf with rfl | hf'
      · simpa using he
      · exact rankIn_none_notMem hrest f hf'

lemma zRevRank_none_notMem {b : Board} {m : String} (h : zRevRank b m = none) :
    ∀ e ∈ b, e.1 ≠ m :=
  fun e he => rankIn_none_notMem h e (mem_revSorted.mpr he)

lemma rankIn_lt_length {m : String} :
    ∀ {l : List Entry} {r : Nat}, rankIn m l = some r → r < l.length
  | [], r, h => by simp [rankIn] at h
  | e :: rest, r, h => by
    unfold rankIn at h
    by_cases he : e.1 == m
    · rw [if_pos he] at h
      simp only [Option.some.injEq] at h
      simp [← h]
    · rw [if_neg he] at h
      cases hr : rankIn m rest with
      | none => rw [hr] at h; simp at h
      | some r' =>
        rw [hr] at h
        simp only [Option.map_some', Option.some.injEq] at h
        have := rankIn_lt_length hr
        simp only [List.length_cons]
        omega

lemma zAdd_absent {m : String} (q : ℚ) :
    ∀ {b : Board}, (∀ e ∈ b, e.1 ≠ m) → zAdd b q m = b ++ [(m, q)]
  | [], _ => rfl
  | e :: rest, h => by
    have he : ¬ (e.1 == m) := by simpa using h e (by simp)
    simp only [zAdd, if_neg he, List.cons_append, List.cons.injEq, true_and]
    exact zAdd_absent q fun f hf => h f (List.mem_cons_of_mem _ hf)

lemma countKey_absent {m : String} {b : Board} (h : ∀ e ∈ b, e.1 ≠ m) : countKey b m = 0 := by
  have : b.filter (fun e => e.1 == m) = [] :=
    List.filter_eq_nil_iff.mpr fun a ha => by simpa using h a ha
  simp [countKey, this]

lemma countKey_append (b₁ b₂ : Board) (m : String) :
    countKey (b₁ ++ b₂) m = countKey b₁ m + countKey b₂ m := by
  simp [countKey, List.filter_append]

lemma zScore_append_absent {m : String} :
    ∀ {b : Board}, (∀ e ∈ b, e.1 ≠ m) → ∀ tail, zScore (b ++ tail) m = zScore tail m
  | [], _ => fun _ => rfl
  | e :: rest, h => fun tail => by
    have he : ¬ (e.1 == m) := by simpa using h e (by simp)
    simp only [List.cons_append, zScore, if_neg he]
    exact zScore_append_absent (fun f hf => h f (List.mem_cons_of_mem _ hf)) tail

lemma getSearchResults_rank_isSome (st : EngineState) :
    ∀ (ps : List PlayerRec) (inc : List String) (row : SRow),
      row ∈ getSearchResults st ps inc → (zRevRank st.board row.id).isSome = true
  | [], _, _, h => by simp [getSearchResults] at h
  | p :: rest, inc, row, h => by
    simp only [getSearchResults] at h
    by_cases hk : toString p.id ∈ inc
    · rw [if_pos hk] at h
      exact getSearchResults_rank_isSome st rest inc row h
    · rw [if_neg hk] at h
      cases hr : zRevRank st.board (toString p.id) with
      | none =>
        rw [hr] at h
        exact getSearchResults_rank_isSome st rest _ row h
      | some r =>
        rw [hr] at h
        rcases List.mem_cons.mp h with rfl | h'
        · simp [hr]
        · exact getSearchResults_rank_isSome st rest _ row h'

lemma window_fetch (st : EngineState) (key : String) (r : Nat)
    (h : zRevRank st.board key = some r) :
    zRangeRevIdx st.board (startRankOf r : Int) ((r : Int) + 2) =
      ((revSorted st.board).drop (startRankOf r)).take
        (min (r + 2) ((revSorted st.board).length - 1) + 1 - startRankOf r) := by
  have hr : r < (revSorted st.board).length := rankIn_lt_length h
  have hs : startRankOf r ≤ r := by unfold startRankOf; split <;> omega
  unfold zRangeRevIdx zrangeSlice
  have h1 : ¬ ((startRankOf r : Int) < 0) := by omega
  have h2 : ¬ (((r : Int) + 2) < 0) := by omega
  simp only [if_neg h1, if_neg h2]
  rw [max_eq_left (by omega : (0 : Int) ≤ (startRankOf r : Int))]
  rw [if_neg (by omega :
    ¬ ((startRankOf r : Int) >
        min ((r : Int) + 2) (((revSorted st.board).length : Int) - 1)))]
  have e1 : ((startRankOf r : Int)).toNat = startRankOf r := by omega
  have e2 : (min ((r : Int) + 2) (((revSorted st.board).length : Int) - 1) -
      (startRankOf r : Int) + 1).toNat =
      min (r + 2) ((revSorted st.board).length - 1) + 1 - startRankOf r := by omega
  rw [e1, e2]

lemma processSurrounding_spec (idy : List PlayerRec) (s r : Nat) :
    ∀ (surr : List Entry) (inc : List String) (idx : Nat),
      (surr.map Prod.fst).Nodup → (∀ e ∈ surr, e.1 ∉ inc) →
      (processSurrounding idy inc s r idx surr).1 =
        ((List.enumFrom idx surr).filterMap fun je =>
          match idy.find? fun p' => toString p'.id == je.2.1 with
          | none => none
          | some pd =>
            if s + je.1 < r then
              some ⟨s + je.1 + 1, je.2.1, pd.name, pd.country, pd.countryCode, je.2.2⟩
            else none) ∧
      (processSurrounding idy inc s r idx surr).2.1 =
        ((List.enumFrom idx surr).filterMap fun je =>
          match idy.find? fun p' => toString p'.id == je.2.1 with
          | none => none
          | some pd =>
            if r < s + je.1 then
              some ⟨s + je.1 + 1, je.2.1, pd.name, pd.country, pd.countryCode, je.2.2⟩
            else none)
  | [], inc, idx, _, _ => by simp [processSurrounding, List.enumFrom]
  | e :: rest, inc, idx, hnd, hdisj => by
    have hnd' : (rest.map Prod.fst).Nodup := by
      simp only [List.map_cons, List.nodup_cons] at hnd
      exact hnd.2
    have hhead : e.1 ∉ rest.map Prod.fst := by
      simp only [List.map_cons, List.nodup_cons] at hnd
      exact hnd.1
    have hdisj' : ∀ f ∈ rest, f.1 ∉ inc := fun f hf => hdisj f (List.mem_cons_of_mem _ hf)
    have hne : e.1 ∉ inc := hdisj e (List.mem_cons_self _ _)
    have hdisj₂ : ∀ f ∈ rest, f.1 ∉ e.1 :: inc := by
      intro f hf
      simp only [List.mem_cons, not_or]
      exact ⟨fun hfe => hhead (List.mem_map.mpr ⟨f, hf, hfe⟩), hdisj' f hf⟩
    simp only [processSurrounding, List.enumFrom, List.filterMap_cons]
    cases hfind : idy.find? fun p' => toString p'.id == e.1 with
    | none =>
      simp only [hfind]
      exact processSurrounding_spec idy s r rest inc (idx + 1) hnd' hdisj'
    | some pd =>
      simp only [hfind]
      by_cases hlt : s + idx < r
      · simp only [if_pos hlt, if_neg (by omega : ¬ r < s + idx), if_neg hne]
        have ih := processSurrounding_spec idy s r rest (e.1 :: inc) (idx + 1) hnd' hdisj₂
        exact ⟨by simp [ih.1], by simp [ih.2]⟩
      · by_cases hgt : r < s + idx
        · simp only [if_neg hlt, if_pos hgt, if_neg hne]
          have ih := processSurrounding_spec idy s r rest (e.1 :: inc) (idx + 1) hnd' hdisj₂
          exact ⟨by simp [ih.1], by simp [ih.2]⟩
        · simp only [if_neg hlt, if_neg hgt]
          exact processSurrounding_spec idy s r rest inc (idx + 1) hnd' hdisj'

lemma processSurrounding_bounds (idy : List PlayerRec) (s r : Nat) :
    ∀ (surr : List Entry) (inc : List String) (idx : Nat),
      (∀ row ∈ (processSurrounding idy inc s r idx surr).1, row.ranking < r + 1) ∧
      (∀ row ∈ (processSurrounding idy inc s r idx surr).2.1, r + 1 < row.ranking)
  | [], inc, idx => by simp [processSurrounding]
  | e :: rest, inc, idx => by
    have ih1 := processSurrounding_bounds idy s r rest inc (idx + 1)
    have ih2 := processSurrounding_bounds idy s r rest (e.1 :: inc) (idx + 1)
    simp only [processSurrounding]
    cases hfind : idy.find? fun p' => toString p'.id == e.1 with
    | none =>
      simp only [hfind]
      exact ih1
    | some pd =>
      simp only [hfind]
      by_cases hlt : s + idx < r
      · simp only [if_pos hlt]
        by_cases hin : e.1 ∈ inc
        · simp only [if_pos hin]
          exact ih1
        · simp only [if_neg hin]
          refine ⟨?_, by simpa using ih2.2⟩
          intro row hrow
          rcases List.mem_cons.mp (by simpa using hrow) with rfl | hrow'
          · simp only []
            omega
          · exact ih2.1 row hrow'
      · by_cases hgt : r < s + idx
        · simp only [if_neg hlt, if_pos hgt]
          by_cases hin : e.1 ∈ inc
          · simp only [if_pos hin]
            exact ih1
          · simp only [if_neg hin]
            refine ⟨by simpa using ih2.1, ?_⟩
            intro row hrow
            rcases List.mem_cons.mp (by simpa using hrow) with rfl | hrow'
            · simp only []
              omega
            · exact ih2.2 row hrow'
        · simp only [if_neg hlt, if_neg hgt]
          exact ih1

lemma processSurrounding_ids (idy : List PlayerRec) (s r : Nat) :
    ∀ (surr : List Entry) (inc : List String) (idx : Nat),
      (∀ m ∈ inc, m ∈ (processSurrounding idy inc s r idx surr).2.2) ∧
      (∀ row ∈ (processSurrounding idy inc s r idx surr).1 ++
          (processSurrounding idy inc s r idx surr).2.1,
        row.id ∈ (processSurrounding idy inc s r idx surr).2.2 ∧ row.id ∉ inc) ∧
      (((processSurrounding idy inc s r idx surr).1 ++
          (processSurrounding idy inc s r idx surr).2.1).map NRow.id).Nodup
  | [], inc, idx => by simp [processSurrounding]
  | e :: rest, inc, idx => by
    simp only [processSurrounding]
    cases hfind : idy.find? fun p' => toString p'.id == e.1 with
    | none =>
      simp only [hfind]
      exact processSurrounding_ids idy s r rest inc (idx + 1)
    | some pd =>
      simp only [hfind]
      by_cases hlt : s + idx < r
      · simp only [if_pos hlt]
        by_cases hin : e.1 ∈ inc
        · simp only [if_pos hin]
          exact processSurrounding_ids idy s r rest inc (idx + 1)
        · simp only [if_neg hin]
          obtain ⟨iha, ihb, ihc⟩ := processSurrounding_ids idy s r rest (e.1 :: inc) (idx + 1)
          refine ⟨?_, ?_, ?_⟩
          · intro m hm
            exact iha m (List.mem_cons_of_mem _ hm)
          · intro row hrow
            simp only [List.cons_append, List.mem_cons] at hrow
            rcases hrow with rfl | hrow'
            · exact ⟨iha _ (List.mem_cons_self _ _), hin⟩
            · obtain ⟨h1, h2⟩ := ihb row hrow'
              exact ⟨h1, fun hmi => h2 (List.mem_cons_of_mem _ hmi)⟩
          · simp only [List.cons_append, List.map_cons, List.nodup_cons]
            refine ⟨?_, ihc⟩
            intro hmem
            obtain ⟨row, hrow, hrid⟩ := List.mem_map.mp hmem
            exact (ihb row hrow).2 (hrid ▸ List.mem_cons_self _ _)
      · by_cases hgt : r < s + idx
        · simp only [if_neg hlt, if_pos hgt]
          by_cases hin : e.1 ∈ inc
          · simp only [if_pos hin]
            exact processSurrounding_ids idy s r rest inc (idx + 1)
          · simp only [if_neg hin]
            obtain ⟨iha, ihb, ihc⟩ := processSurrounding_ids idy s r rest (e.1 :: inc) (idx + 1)
            refine ⟨?_, ?_, ?_⟩
            · intro m hm
              exact iha m (List.mem_cons_of_mem _ hm)
            · intro row hrow
              rcases (List.mem_append.mp hrow) with hrow' | hrow'
              · obtain ⟨h1, h2⟩ := ihb row (List.mem_append_left _ hrow')
                exact ⟨h1, fun hmi => h2 (List.mem_cons_of_mem _ hmi)⟩
              · rcases List.mem_cons.mp hrow' with rfl | hrow''
                · exact ⟨iha _ (List.mem_cons_self _ _), hin⟩
                · obtain ⟨h1, h2⟩ := ihb row (List.mem_append_right _ hrow'')
                  exact ⟨h1, fun hmi => h2 (List.mem_cons_of_mem _ hmi)⟩
            · rw [List.Perm.nodup_iff (List.perm_middle.map NRow.id)]
              simp only [List.map_cons, List.nodup_cons]
              refine ⟨?_, ihc⟩
              intro hmem
              obtain ⟨row, hrow, hrid⟩ := List.mem_map.mp hmem
              exact (ihb row hrow).2 (hrid ▸ List.mem_cons_self _ _)
        · simp only [if_neg hlt, if_neg hgt]
          exact processSurrounding_ids idy s r rest inc (idx + 1)

lemma getSearchResults_ids (st : EngineState) :
    ∀ (ps : List PlayerRec) (inc : List String),
      (srowIds (getSearchResults st ps inc)).Nodup ∧
      ∀ m ∈ srowIds (getSearchResults st ps inc), m ∉ inc
  | [], inc => by simp [getSearchResults, srowIds]
  | p :: rest, inc => by
    simp only [getSearchResults]
    by_cases hk : toString p.id ∈ inc
    · simp only [if_pos hk]
      exact getSearchResults_ids st rest inc
    · simp only [if_neg hk]
      cases hr : zRevRank st.board (toString p.id) with
      | none =>
        simp only [hr]
        obtain ⟨ih1, ih2⟩ := getSearchResults_ids st rest (toString p.id :: inc)
        exact ⟨ih1, fun m hm hmi => ih2 m hm (List.mem_cons_of_mem _ hmi)⟩
      | some r =>
        simp only [hr]
        obtain ⟨psa, psb, psc⟩ := processSurrounding_ids st.identity (startRankOf r) r
          (zRangeRevIdx st.board (startRankOf r : Int) ((r : Int) + 2))
          (toString p.id :: inc) 0
        obtain ⟨ih1, ih2⟩ := getSearchResults_ids st rest
          (processSurrounding st.identity (toString p.id :: inc) (startRankOf r) r 0
            (zRangeRevIdx st.board (startRankOf r : Int) ((r : Int) + 2))).2.2
        simp only [srowIds, List.cons_append, List.nodup_cons, List.mem_cons, List.mem_append,
          ← List.map_append]
        refine ⟨⟨?_, ?_⟩, ?_⟩
        · intro hmem
          rcases hmem with hmem | hmem
          · obtain ⟨row, hrow, hrid⟩ := List.mem_map.mp hmem
            exact (psb row hrow).2 (hrid ▸ List.mem_cons_self _ _)
          · exact ih2 _ hmem (psa _ (List.mem_cons_self _ _))
        · refine List.Nodup.append psc ih1 ?_
          intro m hmX hmY
          obtain ⟨row, hrow, hrid⟩ := List.mem_map.mp hmX
          exact ih2 m hmY (hrid ▸ (psb row hrow).1)
        · intro m hm
          rcases hm with rfl | hm | hm
          · exact hk
          · obtain ⟨row, hrow, hrid⟩ := List.mem_map.mp hm
            intro hmi
            exact (psb row hrow).2 (hrid ▸ List.mem_cons_of_mem _ hmi)
          · intro hmi
            exact ih2 m hm (psa m (List.mem_cons_of_mem _ hmi))

lemma topRankingData_searchRows (st : EngineState) (q : String) (rows : List SRow)
    (h : (topRankingData st q).searchResults = some rows) :
    ∃ ps, rows = getSearchResults st ps [] := by
  unfold topRankingData at h
  split at h
  · simp at h
  · split at h
    · simp at h
    · simp only [Option.some.injEq] at h
      exact ⟨_, h.symm⟩

/-! Claims -/

/-- C1. In every settlement run with pre-distribution pool `P`, the
reward paired with the entry at 0-based position `i` of the fetched
leaderboard is `P * tierRate[i]` for `i < 3` (`tierRate = [0.20, 0.15,
0.10]`) and `remainingPool * 0.00567` otherwise, where `remainingPool` is
`P` minus all rewards allocated earlier in the run; in particular with two
ranked players (scores 500, 300) and pool 100, rank 1 receives 20, rank 2
receives 15, no other rewards are applied, and the pool is reset to 0. -/
theorem settlement_reward_tiers :
    (∀ (P : ℚ) (lb : List Entry) (i : Nat), i < lb.length →
      (settleList P 0 P lb).getD i ("", 0) =
        ((lb.getD i ("", 0)).1,
          if i < 3 then P * tierRates.getD i 0
          else (P - (((settleList P 0 P lb).map Prod.snd).take i).sum) * (567 / 100000)))
    ∧ settleList 100 0 100 (zRangeRevIdx stScenB.board 0 99) = [("1", 20), ("2", 15)]
    ∧ settlement stScenB = ⟨[], [("1", 520), ("2", 315)], 0, 1⟩ := by
  refine ⟨fun P lb i h => by simpa using settleList_getD P lb 0 P i h, ?_, ?_⟩
  · norm_num +decide [stScenB, zRangeRevIdx, revSorted, insertEntry, entryBefore, zrangeSlice,
      settleList, tierRates]
  · norm_num +decide [settlement, stScenB, zRangeRevIdx, revSorted, insertEntry, entryBefore,
      zrangeSlice, settleLoop, tierRates, zIncrBy]

/-- Witness for C1: the general tier formula applied at position 1 of the
scenario-B leaderboard. -/
theorem settlement_reward_tiers_witness :
    1 < ([("1", (500 : ℚ)), ("2", 300)] : List Entry).length ∧
    (settleList 100 0 100 [("1", 500), ("2", 300)]).getD 1 ("", 0) =
      ((([("1", (500 : ℚ)), ("2", 300)] : List Entry).getD 1 ("", 0)).1,
        if 1 < 3 then (100 : ℚ) * tierRates.getD 1 0
        else ((100 : ℚ) -
          (((settleList 100 0 100 [("1", 500), ("2", 300)]).map Prod.snd).take 1).sum) *
            (567 / 100000)) :=
  ⟨by decide, settlement_reward_tiers.1 100 [("1", 500), ("2", 300)] 1 (by decide)⟩

/-- C2. In every settlement run whose board holds at least 100 ranked
entries, the total of the rewards computed across the fetched top 100
equals `P - (1 - 0.20 - 0.15 - 0.10) * P * (1 - 0.00567)^97`. -/
theorem settlement_total_distribution (st : EngineState) (h : 100 ≤ st.board.length) :
    ((settleList st.pool 0 st.pool (zRangeRevIdx st.board 0 99)).map Prod.snd).sum =
      st.pool - (1 - 2 / 10 - 15 / 100 - 1 / 10) * st.pool * (1 - 567 / 100000) ^ 97 := by
  have hlen : (zRangeRevIdx st.board 0 99).length = 100 := by
    rw [length_zRangeRev_top]; omega
  rcases hlb : zRangeRevIdx st.board 0 99 with _ | ⟨a, _ | ⟨b, _ | ⟨c, rest⟩⟩⟩ <;>
    rw [hlb] at hlen <;> simp only [List.length_cons, List.length_nil] at hlen
  · exact absurd hlen (by norm_num)
  · exact absurd hlen (by norm_num)
  · exact absurd hlen (by norm_num)
  · have hrest : rest.length = 97 := by omega
    simp only [settleList, tierRates, List.getD_cons_zero, List.getD_cons_succ, List.map_cons,
      List.sum_cons, (show (0 : Nat) < 3 by norm_num), (show (1 : Nat) < 3 by norm_num),
      (show (2 : Nat) < 3 by norm_num), if_true, if_false, reduceIte]
    rw [settleList_sum_ge3 st.pool rest 3 _ (by norm_num), hrest]
    ring

/-- Witness for C2: a concrete board with 100 members. -/
theorem settlement_total_distribution_witness :
    100 ≤ stHundred.board.length ∧
    ((settleList stHundred.pool 0 stHundred.pool (zRangeRevIdx stHundred.board 0 99)).map
        Prod.snd).sum =
      stHundred.pool -
        (1 - 2 / 10 - 15 / 100 - 1 / 10) * stHundred.pool * (1 - 567 / 100000) ^ 97 :=
  ⟨by decide, settlement_total_distribution stHundred (by decide)⟩

/-- C9. Every settlement run ends with the pool at exactly 0, whatever
was distributed; with an empty leaderboard no rewards are applied, yet the
pool is still reset, and the undistributed remainder is never carried
over. -/
theorem settlement_resets_pool (st : EngineState) :
    (settlement st).pool = 0 ∧
    (st.board = [] → settlement st = ⟨st.identity, st.board, 0, st.nextId⟩) := by
  constructor
  · rfl
  · intro h
    simp [settlement, h, zRangeRevIdx, revSorted, zrangeSlice]

/-- Witness for C9: an empty-board state with a non-zero pool loses its
accumulated contributions. -/
theorem settlement_resets_pool_witness :
    stEmptyBoard.board = [] ∧ settlement stEmptyBoard = ⟨[], [], 0, 1⟩ :=
  ⟨rfl, (settlement_resets_pool stEmptyBoard).2 rfl⟩

/-- C3. For an existing player and a finite numeric amount, the earning
operation adds exactly the amount to the player's board score (initializing
from absent) and exactly `amount * 0.02` to the pool; in particular
Scenario A: register "Ada"/"US"/"US", earn 100, then the top view shows Ada
with score 100 at rank 1 and the pool holds 2. -/
theorem earn_updates_score_and_pool :
    (∀ (st : EngineState) (p : PlayerRec) (q : ℚ), p ∈ st.identity → p.id ≠ 0 →
      earn st (.num (.finite (p.id : ℚ))) (.num (.finite q)) =
        some (.ok, ⟨st.identity, zIncrBy st.board q (toString p.id),
                    st.pool + q * (2 / 100), st.nextId⟩) ∧
      zScore (zIncrBy st.board q (toString p.id)) (toString p.id) =
        some ((zScore st.board (toString p.id)).getD 0 + q))
    ∧ createPlayer stReg0 "Ada" "US" "US" = (.created 1, stAda0)
    ∧ earn stAda0 (.num (.finite 1)) (.num (.finite 100)) = some (.ok, stAda100)
    ∧ getTopRankingPlayers stAda100 = [⟨1, "1", some "Ada", some "US", some "US", 100⟩]
    ∧ stAda100.pool = 2 := by
  refine ⟨?_, ?_, ?_, ?_, rfl⟩
  · intro st p q hp hid
    have ht := truthy_natCast hid
    have hany : (st.identity.any fun p' => idMatches (.num (.finite (p.id : ℚ))) p'.id) = true :=
      List.any_eq_true.mpr ⟨p, hp, by simp [idMatches]⟩
    refine ⟨?_, zScore_zIncrBy_self (toString p.id) q st.board⟩
    simp [earn, ht, hany, JSVal.isNumber, jsKey_natCast]
  · norm_num +decide [createPlayer, stReg0, stAda0, zAdd, jsTrim]
  · norm_num +decide [earn, stAda0, stAda100, JSVal.truthy, JSVal.isNumber, idMatches, jsKey,
      zIncrBy]
  · norm_num +decide [getTopRankingPlayers, stAda100, zRangeRevIdx, revSorted, insertEntry,
      entryBefore, zrangeSlice, topRows, List.find?]

/-- Witness for C3: the general earning effect applied to Ada. -/
theorem earn_updates_score_and_pool_witness :
    (⟨1, "Ada", "US", "US"⟩ : PlayerRec) ∈ stAda0.identity ∧
    (⟨1, "Ada", "US", "US"⟩ : PlayerRec).id ≠ 0 ∧
    (earn stAda0 (.num (.finite ((⟨1, "Ada", "US", "US"⟩ : PlayerRec).id : ℚ)))
        (.num (.finite 100)) =
      some (.ok, ⟨stAda0.identity, zIncrBy stAda0.board 100 (toString (1 : Nat)),
                  stAda0.pool + 100 * (2 / 100), stAda0.nextId⟩) ∧
      zScore (zIncrBy stAda0.board 100 (toString (1 : Nat))) (toString (1 : Nat)) =
        some ((zScore stAda0.board (toString (1 : Nat))).getD 0 + 100)) :=
  ⟨by decide, by decide,
    earn_updates_score_and_pool.1 stAda0 ⟨1, "Ada", "US", "US"⟩ 100 (by decide) (by decide)⟩

/-- C4. An earning request whose (truthy) playerId matches no row of
the identity store fails with NotFound and leaves the state untouched: the
existence check runs before any store write. -/
theorem earn_absent_player_not_found (st : EngineState) (pid amt : JSVal)
    (h₁ : pid.truthy = true) (h₂ : amt.isNumber = true)
    (h₃ : (st.identity.any fun p => idMatches pid p.id) = false) :
    earn st pid amt = some (.notFound, st) := by
  simp [earn, h₁, h₂, h₃]

/-- Witness for C4: earning for the non-existent player 9999. -/
theorem earn_absent_player_not_found_witness :
    (JSVal.num (.finite 9999)).truthy = true ∧
    (JSVal.num (.finite 5)).isNumber = true ∧
    (stReg0.identity.any fun p => idMatches (.num (.finite 9999)) p.id) = false ∧
    earn stReg0 (.num (.finite 9999)) (.num (.finite 5)) = some (.notFound, stReg0) :=
  ⟨by decide, by decide, by decide,
    earn_absent_player_not_found stReg0 _ _ (by decide) (by decide) (by decide)⟩

/-- Counterexample for C7: `typeof NaN === 'number'`, so an earning with a
NaN amount is **not** rejected as InvalidInput — it reaches the identity
lookup and fails as NotFound here. -/
theorem earn_nonfinite_cex :
    earn stReg0 (.num (.finite 5)) (.num .nan) = some (.notFound, stReg0) ∧
    EarnStatus.notFound ≠ EarnStatus.invalidInput :=
  ⟨by decide, by decide⟩

/-- C7 (amended). A non-numeric amount (by `typeof`) is rejected with
InvalidInput before any store access, but the validation does not test
finiteness: with a truthy playerId, a NaN or Infinity amount is never
rejected as InvalidInput and proceeds to the player-existence check. -/
theorem earn_validation_amended :
    (∀ (st : EngineState) (pid amt : JSVal), amt.isNumber = false →
      earn st pid amt = some (.invalidInput, st)) ∧
    (∀ (st : EngineState) (pid : JSVal) (st' : EngineState), pid.truthy = true →
      earn st pid (.num .nan) ≠ some (.invalidInput, st') ∧
      earn st pid (.num .inf) ≠ some (.invalidInput, st')) := by
  constructor
  · intro st pid amt h
    simp [earn, h]
  · intro st pid st' h
    constructor <;>
      · simp only [earn, h, JSVal.isNumber, Bool.not_true, Bool.false_or, Bool.or_self,
          if_false, Bool.or_false]
        split <;> simp_all

/-- Witness for C7 (amended): a string amount is rejected as InvalidInput
with the state unchanged. -/
theorem earn_validation_amended_witness :
    (JSVal.str "x").isNumber = false ∧
    earn stReg0 (.num (.finite 1)) (.str "x") = some (.invalidInput, stReg0) :=
  ⟨by decide, earn_validation_amended.1 stReg0 _ _ (by decide)⟩

/-- C10. A falsy playerId — the number 0, the empty string, or a
missing field — is rejected as InvalidInput (never NotFound) before any
store access, even though 0 is numeric, so a player with id 0 could never
record earnings. -/
theorem earn_falsy_player_invalid (st : EngineState) (amt : JSVal) :
    earn st (.num (.finite 0)) amt = some (.invalidInput, st) ∧
    earn st (.str "") amt = some (.invalidInput, st) ∧
    earn st .undefined amt = some (.invalidInput, st) ∧
    EarnStatus.invalidInput ≠ EarnStatus.notFound := by
  refine ⟨?_, ?_, ?_, by decide⟩ <;> simp [earn, JSVal.truthy]

/-- Counterexample for C5: Ada exists in the identity store but not on the
(non-empty) board, yet the current search flow matches her by name and then
answers with an empty search-result list — no row with a null rank and zero
score, and (the flow being read-only) no self-heal insert.  Bob's board
entry keeps the leaderboard non-empty, so the top-view join runs on its
normal path. -/
theorem search_self_heal_cex :
    zRevRank stAdaUnranked.board (toString (1 : Nat)) = none ∧
    (topRankingData stAdaUnranked "Ada").searchResults = some [] := by
  constructor
  · decide
  · norm_num +decide [topRankingData, stAdaUnranked, likeMatch, containsSeq, leadsWith,
      getTopRankingPlayers, zRangeRevIdx, revSorted, insertEntry, entryBefore, zrangeSlice,
      topRows, zRevRank, rankIn, sortByRank, getSearchResults, List.filter, List.filterMap]

/-- C5 (amended). Only the standalone version-2 search handler
self-heals: for a matched player absent from the board it answers `ranking:
null, money: 0` and inserts a zero-score entry, after which the board holds
exactly one zero-score entry for that id.  The combined
`top-ranking-data` flow instead omits such a player from its search results
(and performs no insert). -/
theorem search_self_heal_amended :
    (∀ (st : EngineState) (p : PlayerRec), zRevRank st.board (toString p.id) = none →
      (searchSelfHeal st p).1 = ⟨none, p.name, p.country, p.countryCode, 0⟩ ∧
      countKey (searchSelfHeal st p).2 (toString p.id) = 1 ∧
      zScore (searchSelfHeal st p).2 (toString p.id) = some 0) ∧
    (∀ (st : EngineState) (q : String) (p : PlayerRec) (rows : List SRow) (row : SRow),
      zRevRank st.board (toString p.id) = none →
      (topRankingData st q).searchResults = some rows → row ∈ rows →
      row.id ≠ toString p.id) := by
  constructor
  · intro st p habs
    have hnot := zRevRank_none_notMem habs
    have hins : zAdd st.board 0 (toString p.id) = st.board ++ [(toString p.id, 0)] :=
      zAdd_absent 0 hnot
    refine ⟨rfl, ?_, ?_⟩
    · show countKey (zAdd st.board 0 (toString p.id)) (toString p.id) = 1
      rw [hins, countKey_append, countKey_absent hnot]
      simp [countKey, List.filter]
    · show zScore (zAdd st.board 0 (toString p.id)) (toString p.id) = some 0
      rw [hins, zScore_append_absent hnot]
      simp [zScore]
  · intro st q p rows row habs hresp hmem heq
    obtain ⟨ps, rfl⟩ := topRankingData_searchRows st q rows hresp
    have hsome := getSearchResults_rank_isSome st ps [] row hmem
    rw [heq, habs] at hsome
    simp at hsome

/-- Witness for C5 (amended): the version-2 self-heal applied to Ada. -/
theorem search_self_heal_amended_witness :
    zRevRank stAdaNoRank.board (toString (1 : Nat)) = none ∧
    ((searchSelfHeal stAdaNoRank ⟨1, "Ada", "US", "US"⟩).1 = ⟨none, "Ada", "US", "US", 0⟩ ∧
     countKey (searchSelfHeal stAdaNoRank ⟨1, "Ada", "US", "US"⟩).2 (toString (1 : Nat)) = 1 ∧
     zScore (searchSelfHeal stAdaNoRank ⟨1, "Ada", "US", "US"⟩).2 (toString (1 : Nat)) =
       some 0) :=
  ⟨by decide, search_self_heal_amended.1 stAdaNoRank ⟨1, "Ada", "US", "US"⟩ (by decide)⟩

/-- Counterexample for C6: in the version-2 standalone search handler the
window bounds are not clamped, so for the player "a" at rank 0 of a
6-member board the handler passes `ZRANGE -3 2 REV`, which under Redis
negative-index semantics resolves to start 3 > stop 2 and fetches nothing —
not the claimed window `[max(0, 0-3), 0+2]` of three entries. -/
theorem neighborhood_window_cex :
    zRevRank b6board "a" = some 0 ∧
    surroundingV2 b6board 0 = [] ∧
    specNeighborhoodWindow (revSorted b6board) 0 = [("a", 60), ("b", 50), ("c", 40)] ∧
    surroundingV2 b6board 0 ≠ specNeighborhoodWindow (revSorted b6board) 0 := by
  refine ⟨by decide, by decide, by decide, by decide⟩

/-- C6 (amended). `getSearchResults` (which clamps `startRank` to 0)
fetches exactly the contiguous rank window from `max(0, R-3)` through
`min(R+2, n-1)` of the descending board, and partitions the fetched
entries by window position — profiled entries strictly before `R` into
`prevPlayers`, strictly after `R` into `nextPlayers`, never the entry at
`R` itself (every emitted ranking differs from `R+1`); the version-2
standalone handler passes the unclamped `R-3`, which for `R < 3` fetches a
different window. -/
theorem neighborhood_window_amended :
    (∀ (st : EngineState) (key : String) (r : Nat), zRevRank st.board key = some r →
      zRangeRevIdx st.board (startRankOf r : Int) ((r : Int) + 2) =
        ((revSorted st.board).drop (startRankOf r)).take
          (min (r + 2) ((revSorted st.board).length - 1) + 1 - startRankOf r)) ∧
    (∀ (idy : List PlayerRec) (s r : Nat) (surr : List Entry) (inc : List String),
      (surr.map Prod.fst).Nodup → (∀ e ∈ surr, e.1 ∉ inc) →
      (processSurrounding idy inc s r 0 surr).1 = windowPrevSpec idy s r surr ∧
      (processSurrounding idy inc s r 0 surr).2.1 = windowNextSpec idy s r surr) ∧
    (∀ (idy : List PlayerRec) (s r idx : Nat) (surr : List Entry) (inc : List String),
      (∀ row ∈ (processSurrounding idy inc s r idx surr).1, row.ranking < r + 1) ∧
      (∀ row ∈ (processSurrounding idy inc s r idx surr).2.1, r + 1 < row.ranking)) := by
  refine ⟨window_fetch, ?_, ?_⟩
  · intro idy s r surr inc hnd hdisj
    exact processSurrounding_spec idy s r surr inc 0 hnd hdisj
  · intro idy s r idx surr inc
    exact processSurrounding_bounds idy s r surr inc idx

/-- Counterexample for C8: Alice leads the top-100 view, and searching Bob
puts Alice into Bob's neighborhood as well, so the id "1" appears both in
the top view and in a neighborhood of the same combined response — the
per-request set only covers the search results, never the top view. -/
theorem dedup_overlap_cex :
    "1" ∈ (topRankingData stAliceBob "Bob").topRankingPlayers.map RankedRow.id ∧
    "1" ∈ neighborhoodIds ((topRankingData stAliceBob "Bob").searchResults.getD []) := by
  norm_num +decide [topRankingData, stAliceBob, likeMatch, containsSeq, leadsWith,
    getTopRankingPlayers, zRangeRevIdx, revSorted, insertEntry, entryBefore, zrangeSlice,
    topRows, zRevRank, rankIn, sortByRank, insertByRank, getSearchResults, processSurrounding,
    startRankOf, zScore, neighborhoodIds, List.filter, List.filterMap, List.find?]

/-- C8 (amended). The per-request included-ids set deduplicates only
within the search results: across all searched-player rows and their
neighborhoods no player id ever appears twice, and no emitted id lies in
the initial set; the top-N view's ids are not added to the set, so an id
may appear both in the top-N view and in a neighborhood. -/
theorem dedup_amended (st : EngineState) (ps : List PlayerRec) (inc : List String) :
    (srowIds (getSearchResults st ps inc)).Nodup ∧
    ∀ m ∈ srowIds (getSearchResults st ps inc), m ∉ inc :=
  getSearchResults_ids st ps inc

/-- Witness for C8 (amended): searching Bob alone yields duplicate-free
ids. -/
theorem dedup_amended_witness :
    (srowIds (getSearchResults stAliceBob [⟨2, "Bob", "FR", "FR"⟩] [])).Nodup ∧
    "2" ∉ ([] : List String) :=
  ⟨(dedup_amended stAliceBob [⟨2, "Bob", "FR", "FR"⟩] []).1,
   (dedup_amended stAliceBob [⟨2, "Bob", "FR", "FR"⟩] []).2 "2" (by decide)⟩

/-- Witness for C6 (amended): the clamped fetch and partition at Bob's
rank 1 on a two-member board. -/
theorem neighborhood_window_amended_witness :
    zRevRank stAliceBob.board "2" = some 1 ∧
    zRangeRevIdx stAliceBob.board (startRankOf 1 : Int) ((1 : Int) + 2) =
      ((revSorted stAliceBob.board).drop (startRankOf 1)).take
        (min (1 + 2) ((revSorted stAliceBob.board).length - 1) + 1 - startRankOf 1) ∧
    ((stAliceBob.board.map Prod.fst).Nodup ∧ (∀ e ∈ stAliceBob.board, e.1 ∉ ([] : List String))) ∧
    (processSurrounding stAliceBob.identity [] (startRankOf 1) 1 0 stAliceBob.board).1 =
      windowPrevSpec stAliceBob.identity (startRankOf 1) 1 stAliceBob.board ∧
    (processSurrounding stAliceBob.identity [] (startRankOf 1) 1 0 stAliceBob.board).2.1 =
      windowNextSpec stAliceBob.identity (startRankOf 1) 1 stAliceBob.board :=
  ⟨by decide,
   neighborhood_window_amended.1 stAliceBob "2" 1 (by decide),
   ⟨by decide, by decide⟩,
   (neighborhood_window_amended.2.1 stAliceBob.identity (startRankOf 1) 1 stAliceBob.board []
     (by decide) (by decide)).1,
   (neighborhood_window_amended.2.1 stAliceBob.identity (startRankOf 1) 1 stAliceBob.board []
     (by decide) (by decide)).2⟩
